import Mathlib

/-!
Shallow embedding of the event-aggregation core of the `event_finder`
repository (`src/types/event.ts`, `src/types/eventProvider.ts`, and the
`EventAggregator` class), together with proofs of the specification's
claims about it.

JavaScript host behaviour is modelled explicitly:
* `new Date(s).getTime()` is modelled by a parameter `parse : String → Option Int`
  (`none` stands for an Invalid Date, whose time value is NaN);
* `new Date(s).toDateString()` is modelled by a parameter `dayString : String → String`;
* the start of the current local calendar day and the `setMonth` calendar
  arithmetic used by `getEventsByTimeframe` are modelled by parameters
  `todayStart : Int` and `monthsAfter : Nat → Int`;
* `Array.prototype.sort(cmp)` is modelled by a stable insertion sort `jsSort le`
  where `le a b` decides `cmp a b ≤ 0`; per ECMAScript `SortCompare`, a NaN
  comparator value is coerced to `+0`, so two events whose dates do not both
  parse compare as "equal" (`dateLe` returns `true` both ways);
* a promise that may reject is modelled by `Except String`.
-/

namespace EventFinder

/-- Model of `Event` from `src/types/event.ts`. -/
structure Event where
  id : String
  title : String
  description : String
  date : String
  venue : String
  address : String
  category : String
  distance : Int
  deriving DecidableEq

/-- Model of `EventSearchParams` from `src/types/eventProvider.ts`. -/
structure EventSearchParams where
  postalCode : Option String := none
  latitude : Option Int := none
  longitude : Option Int := none
  radius : Int := 0
  startDateTime : Option String := none
  endDateTime : Option String := none
  size : Option Nat := none
  page : Option Nat := none
  category : Option String := none
  deriving DecidableEq

/-- Model of `EventSearchResult` from `src/types/eventProvider.ts`. -/
structure EventSearchResult where
  events : List Event
  totalCount : Nat
  hasMore : Bool
  source : String
  deriving DecidableEq

/-- Model of the capability descriptor of `IEventProvider`. -/
structure ProviderCapabilities where
  locationSearch : Bool
  categoryFilter : Bool
  dateRange : Bool
  pagination : Bool
  deriving DecidableEq

/-- Model of `IEventProvider`.  `searchEvents` returns a promise that may
reject, modelled as `Except String`; `isAvailable()` is a synchronous check,
modelled as a plain boolean. -/
structure IEventProvider where
  name : String
  priority : Int
  capabilities : ProviderCapabilities
  searchEvents : EventSearchParams → Except String EventSearchResult
  isAvailable : Bool

/-- Model of `EventAggregatorConfig`; `none` stands for an absent optional key. -/
structure EventAggregatorConfig where
  providers : List IEventProvider
  maxResultsPerProvider : Option Nat := none
  enableDeduplication : Option Bool := none
  parallelRequests : Option Bool := none

/-- Semantics of the JavaScript host operations used by the aggregator, taken
as a parameter of the embedding: `parse` and `dayString` for the `Date`
constructor's parsing and `toDateString`, `toLowerCase` and `trim` for the
ECMAScript `String.prototype` methods (Unicode case mapping is host
behaviour), `todayStart` and `monthsAfter` for the current-day reference
instant and the `setMonth` calendar arithmetic of `getEventsByTimeframe`. -/
structure JSHost where
  parse : String → Option Int
  dayString : String → String
  toLowerCase : String → String
  trim : String → String
  todayStart : Int
  monthsAfter : Nat → Int

/-- One step of the stable-sort model: insert `a` into `l`, placing it before
the first element `b` with `le a b` (i.e. `cmp a b ≤ 0`). -/
def jsInsert (le : α → α → Bool) (a : α) : List α → List α
  | [] => [a]
  | b :: l => if le a b then a :: b :: l else b :: jsInsert le a l

/-- Stable sort modelling `Array.prototype.sort(cmp)`, with `le a b` deciding
`cmp a b ≤ 0` after the ECMAScript NaN-to-`+0` coercion. -/
def jsSort (le : α → α → Bool) : List α → List α
  | [] => []
  | a :: l => jsInsert le a (jsSort le l)

/-- The comparator `(a, b) => new Date(a.date).getTime() - new Date(b.date).getTime()`
of `deduplicateEvents`, as the decision `cmp a b ≤ 0`: when either date fails to
parse the subtraction is NaN, which `SortCompare` coerces to `+0`, hence `true`. -/
def dateLe (jd : JSHost) (a b : Event) : Bool :=
  match jd.parse a.date, jd.parse b.date with
  | some x, some y => decide (x ≤ y)
  | _, _ => true

/-- The provider comparator `(a, b) => b.priority - a.priority` of the
`EventAggregator` constructor, as the decision `cmp a b ≤ 0`. -/
def priorityDesc (a b : IEventProvider) : Bool :=
  decide (b.priority ≤ a.priority)

/-- The aggregator state after the constructor ran: providers sorted descending
by priority, configuration defaults filled in. -/
structure EventAggregator where
  providers : List IEventProvider
  maxResultsPerProvider : Nat
  enableDeduplication : Bool
  parallelRequests : Bool

/-- Model of the `EventAggregator` constructor: sorts the providers descending
by `priority` and applies the config defaults `50` / `true` / `true`. -/
def EventAggregator.ofConfig (config : EventAggregatorConfig) : EventAggregator where
  providers := jsSort priorityDesc config.providers
  maxResultsPerProvider := config.maxResultsPerProvider.getD 50
  enableDeduplication := config.enableDeduplication.getD true
  parallelRequests := config.parallelRequests.getD true

/-- The empty `EventSearchResult` a failing provider's contribution is replaced
with. -/
def emptyResultFor (p : IEventProvider) : EventSearchResult where
  events := []
  totalCount := 0
  hasMore := false
  source := p.name

/-- The `try { await provider.searchEvents } catch` pattern shared by
`searchParallel` and `searchSequential`: a rejected call is converted to the
empty result for that provider. -/
def caughtSearch (params : EventSearchParams) (p : IEventProvider) : EventSearchResult :=
  match p.searchEvents params with
  | .ok r => r
  | .error _ => emptyResultFor p

/-- The `searchParams = { ...params, size: this.config.maxResultsPerProvider }`
request both fan-out paths send to every provider. -/
def withSize (agg : EventAggregator) (params : EventSearchParams) : EventSearchParams :=
  { params with size := some agg.maxResultsPerProvider }

/-- Model of `EventAggregator.searchParallel`: `Promise.all` over the mapped
providers, each call individually caught. -/
def searchParallel (agg : EventAggregator) (providers : List IEventProvider)
    (params : EventSearchParams) : List EventSearchResult :=
  providers.map (caughtSearch (withSize agg params))

/-- Model of `EventAggregator.searchSequential`: the `for … of` loop pushing
one caught result per provider. -/
def searchSequential (agg : EventAggregator) (providers : List IEventProvider)
    (params : EventSearchParams) : List EventSearchResult :=
  match providers with
  | [] => []
  | p :: rest => caughtSearch (withSize agg params) p :: searchSequential agg rest params

/-- Model of `EventAggregator.generateDeduplicationKey`:
`` `${title}|${date}|${venue}` `` with `date = new Date(event.date).toDateString()`,
title and venue lowercased and trimmed. -/
def generateDeduplicationKey (jd : JSHost) (event : Event) : String :=
  let date := jd.dayString event.date
  let title := jd.trim (jd.toLowerCase event.title)
  let venue := jd.trim (jd.toLowerCase event.venue)
  title ++ "|" ++ date ++ "|" ++ venue

/-- The seen-set loop of `EventAggregator.deduplicateEvents`: keep an event iff
its key has not been seen, first occurrence wins. -/
def dedupPass (key : Event → String) (seen : List String) : List Event → List Event
  | [] => []
  | e :: rest =>
    if key e ∈ seen then dedupPass key seen rest
    else e :: dedupPass key (key e :: seen) rest

/-- Model of `EventAggregator.deduplicateEvents`: flatten all providers'
events, drop later key-duplicates, then sort by parsed date. -/
def deduplicateEvents (jd : JSHost) (results : List EventSearchResult) : List Event :=
  let allEvents := (results.map (·.events)).flatten
  jsSort (dateLe jd) (dedupPass (generateDeduplicationKey jd) [] allEvents)

/-- The fan-out step of `searchEvents`: parallel or sequential according to the
configuration. -/
def fanOut (agg : EventAggregator) (providers : List IEventProvider)
    (params : EventSearchParams) : List EventSearchResult :=
  if agg.parallelRequests then searchParallel agg providers params
  else searchSequential agg providers params

/-- The merge step of `searchEvents`: deduplicate when enabled, otherwise keep
every event, concatenated in registry order. -/
def mergeEvents (jd : JSHost) (agg : EventAggregator)
    (results : List EventSearchResult) : List Event :=
  if agg.enableDeduplication then deduplicateEvents jd results
  else (results.map (·.events)).flatten

/-- Model of `EventAggregator.searchEvents`: filter to available providers,
fail when none is available, otherwise fan out, merge, and wrap the result. -/
def searchEvents (jd : JSHost) (agg : EventAggregator) (params : EventSearchParams) :
    Except String EventSearchResult :=
  let availableProviders := agg.providers.filter (·.isAvailable)
  if availableProviders.length = 0 then
    .error "No event providers are available"
  else
    let results := fanOut agg availableProviders params
    let aggregatedEvents := mergeEvents jd agg results
    .ok { events := aggregatedEvents
          totalCount := aggregatedEvents.length
          hasMore := results.any (·.hasMore)
          source := "aggregated" }

/-- The `eventDate >= bound` comparison of `getEventsByTimeframe`: a NaN date
compares `false`. -/
def jsGe (t : Option Int) (bound : Int) : Bool :=
  match t with
  | some v => decide (bound ≤ v)
  | none => false

/-- The `eventDate <= bound` comparison of `getEventsByTimeframe`: a NaN date
compares `false`. -/
def jsLe (t : Option Int) (bound : Int) : Bool :=
  match t with
  | some v => decide (v ≤ bound)
  | none => false

/-- The `eventDate < bound` comparison of `getEventsByTimeframe`: a NaN date
compares `false`. -/
def jsLt (t : Option Int) (bound : Int) : Bool :=
  match t with
  | some v => decide (v < bound)
  | none => false

/-- Model of `EventAggregator.getEventsByTimeframe`: the `switch` on the
timeframe string, with `today = jd.todayStart` the start of the current local
day and `jd.monthsAfter k` the `setMonth(getMonth() + k)` instant. -/
def getEventsByTimeframe (jd : JSHost) (events : List Event) (timeframe : String) :
    List Event :=
  let today := jd.todayStart
  events.filter fun event =>
    let eventDate := jd.parse event.date
    if timeframe = "today" then
      jsGe eventDate today && jsLt eventDate (today + 24 * 60 * 60 * 1000)
    else if timeframe = "week" then
      jsGe eventDate today && jsLe eventDate (today + 7 * 24 * 60 * 60 * 1000)
    else if timeframe = "month" then
      jsGe eventDate today && jsLe eventDate (jd.monthsAfter 1)
    else if timeframe = "3months" then
      jsGe eventDate today && jsLe eventDate (jd.monthsAfter 3)
    else
      true

deriving instance DecidableEq for Except

/-! Concrete fixtures used to instantiate the theorems below on closed inputs:
a host whose date parsing recognises the three date strings "1000", "2000",
"3000" (any other string is an Invalid Date), with identity case-mapping,
trimming and day-truncation, plus a handful of events, providers and
configurations. -/

def jdW : JSHost where
  parse := fun s =>
    if s = "1000" then some 1000
    else if s = "2000" then some 2000
    else if s = "3000" then some 3000
    else none
  dayString := fun s => s
  toLowerCase := fun s => s
  trim := fun s => s
  todayStart := 0
  monthsAfter := fun k => 30 * 86400000 * k

def capsW : ProviderCapabilities where
  locationSearch := true
  categoryFilter := false
  dateRange := false
  pagination := false

def mkEvent (i t d v : String) : Event where
  id := i
  title := t
  description := ""
  date := d
  venue := v
  address := ""
  category := ""
  distance := 0

def evA : Event := mkEvent "a_1" "concert" "1000" "arena"
def evC : Event := mkEvent "c_1" "concert" "1000" "arena"
def evB : Event := mkEvent "b_1" "workshop" "2000" "hall"
def evLate : Event := mkEvent "l_1" "late" "2000" "vl"
def evEarly : Event := mkEvent "e_1" "early" "1000" "ve"
def ev3 : Event := mkEvent "x3" "t3" "3000" "v3"
def evN : Event := mkEvent "xn" "tn" "zzz" "vn"
def ev1 : Event := mkEvent "x1" "t1" "1000" "v1"

def pA : IEventProvider where
  name := "A"
  priority := 100
  capabilities := capsW
  searchEvents := fun _ => .ok { events := [evA], totalCount := 1, hasMore := false, source := "A" }
  isAvailable := true

def pFail : IEventProvider where
  name := "F"
  priority := 95
  capabilities := capsW
  searchEvents := fun _ => .error "network down"
  isAvailable := true

def pB : IEventProvider where
  name := "B"
  priority := 90
  capabilities := capsW
  searchEvents := fun _ => .ok { events := [evB], totalCount := 1, hasMore := true, source := "B" }
  isAvailable := true

def pC : IEventProvider where
  name := "C"
  priority := 80
  capabilities := capsW
  searchEvents := fun _ => .ok { events := [evC], totalCount := 1, hasMore := false, source := "C" }
  isAvailable := true

def pOff : IEventProvider where
  name := "Off"
  priority := 10
  capabilities := capsW
  searchEvents := fun _ => .ok { events := [evB], totalCount := 1, hasMore := false, source := "Off" }
  isAvailable := false

def pLateEarly : IEventProvider where
  name := "LE"
  priority := 50
  capabilities := capsW
  searchEvents := fun _ =>
    .ok { events := [evLate, evEarly], totalCount := 2, hasMore := false, source := "LE" }
  isAvailable := true

def pNaN : IEventProvider where
  name := "N"
  priority := 50
  capabilities := capsW
  searchEvents := fun _ =>
    .ok { events := [ev3, evN, ev1], totalCount := 3, hasMore := false, source := "N" }
  isAvailable := true

def cfgMixed : EventAggregatorConfig := { providers := [pC, pA, pFail, pB, pOff] }

def cfgAllOff : EventAggregatorConfig := { providers := [pOff] }

def cfgNoDedup : EventAggregatorConfig :=
  { providers := [pLateEarly], enableDeduplication := some false }

def cfgNaN : EventAggregatorConfig := { providers := [pNaN] }

/-! Lemmas about the stable-sort model. -/

theorem jsInsert_perm (le : α → α → Bool) (a : α) (l : List α) :
    (jsInsert le a l).Perm (a :: l) := by
  induction l with
  | nil => exact List.Perm.refl _
  | cons b t ih =>
    simp only [jsInsert]
    by_cases h : le a b = true
    · rw [if_pos h]
    · rw [if_neg h]
      exact (ih.cons b).trans (List.Perm.swap a b t)

theorem jsSort_perm (le : α → α → Bool) (l : List α) : (jsSort le l).Perm l := by
  induction l with
  | nil => exact List.Perm.refl _
  | cons a t ih =>
    simp only [jsSort]
    exact (jsInsert_perm le a (jsSort le t)).trans (ih.cons a)

theorem chain'_jsInsert (le : α → α → Bool)
    (htot : ∀ a b, le a b = true ∨ le b a = true) (a : α) :
    ∀ {l : List α}, List.Chain' (fun x y => le x y = true) l →
      List.Chain' (fun x y => le x y = true) (jsInsert le a l) := by
  intro l
  induction l with
  | nil => intro _; simp [jsInsert]
  | cons b t ih =>
    intro hc
    simp only [jsInsert]
    by_cases h : le a b = true
    · rw [if_pos h]
      exact List.chain'_cons.mpr ⟨h, hc⟩
    · rw [if_neg h]
      have hba : le b a = true := (htot a b).resolve_left h
      have hi := ih hc.tail
      cases t with
      | nil =>
        simp only [jsInsert]
        exact List.chain'_pair.mpr hba
      | cons c t' =>
        simp only [jsInsert] at hi ⊢
        by_cases h2 : le a c = true
        · rw [if_pos h2] at hi ⊢
          exact List.chain'_cons.mpr ⟨hba, hi⟩
        · rw [if_neg h2] at hi ⊢
          exact List.chain'_cons.mpr ⟨(List.chain'_cons.mp hc).1, hi⟩

theorem chain'_jsSort (le : α → α → Bool)
    (htot : ∀ a b, le a b = true ∨ le b a = true) (l : List α) :
    List.Chain' (fun x y => le x y = true) (jsSort le l) := by
  induction l with
  | nil => simp [jsSort]
  | cons a t ih =>
    simp only [jsSort]
    exact chain'_jsInsert le htot a ih

theorem jsSort_eq_of_chain' (le : α → α → Bool) :
    ∀ {l : List α}, List.Chain' (fun x y => le x y = true) l → jsSort le l = l := by
  intro l
  induction l with
  | nil => intro _; rfl
  | cons a t ih =>
    intro hc
    simp only [jsSort]
    rw [ih hc.tail]
    cases t with
    | nil => rfl
    | cons b t' =>
      simp only [jsInsert]
      rw [if_pos (List.chain'_cons.mp hc).1]

theorem dateLe_total (jd : JSHost) (a b : Event) :
    dateLe jd a b = true ∨ dateLe jd b a = true := by
  unfold dateLe
  cases jd.parse a.date with
  | none => cases jd.parse b.date <;> simp
  | some x =>
    cases jd.parse b.date with
    | none => simp
    | some y =>
      simp only [decide_eq_true_eq]
      exact Int.le_total x y

theorem dateLe_spec (jd : JSHost) {a b : Event} {x y : Int}
    (hx : jd.parse a.date = some x) (hy : jd.parse b.date = some y)
    (h : dateLe jd a b = true) : x ≤ y := by
  unfold dateLe at h
  rw [hx, hy] at h
  simpa using h

theorem pairwise_of_chain'_parseable (jd : JSHost) :
    ∀ {l : List Event}, (∀ e ∈ l, (jd.parse e.date).isSome) →
      List.Chain' (fun a b => dateLe jd a b = true) l →
      List.Pairwise
        (fun a b => ∀ ta tb, jd.parse a.date = some ta → jd.parse b.date = some tb → ta ≤ tb)
        l := by
  intro l
  induction l with
  | nil => intro _ _; exact List.Pairwise.nil
  | cons a t ih =>
    intro hp hc
    have hpt : ∀ e ∈ t, (jd.parse e.date).isSome := fun e he => hp e (List.mem_cons_of_mem a he)
    have hPt := ih hpt hc.tail
    refine List.pairwise_cons.mpr ⟨?_, hPt⟩
    cases t with
    | nil => intro c hc'; cases hc'
    | cons b t' =>
      have hab : dateLe jd a b = true := (List.chain'_cons.mp hc).1
      intro c hcmem ta tc hta htc
      rcases List.mem_cons.mp hcmem with hcb | hct'
      · subst hcb
        exact dateLe_spec jd hta htc hab
      · obtain ⟨tb, htb⟩ := Option.isSome_iff_exists.mp (hp b (by simp))
        have h1 : ta ≤ tb := dateLe_spec jd hta htb hab
        have h2 : tb ≤ tc :=
          (List.pairwise_cons.mp hPt).1 c hct' tb tc htb htc
        exact le_trans h1 h2

/-! Lemmas about the deduplication pass. -/

theorem dedupPass_congr (key : Event → String) :
    ∀ (l : List Event) {seen₁ seen₂ : List String},
      (∀ s, s ∈ seen₁ ↔ s ∈ seen₂) → dedupPass key seen₁ l = dedupPass key seen₂ l := by
  intro l
  induction l with
  | nil => intro _ _ _; rfl
  | cons e t ih =>
    intro seen₁ seen₂ h
    simp only [dedupPass]
    by_cases he : key e ∈ seen₁
    · rw [if_pos he, if_pos ((h _).mp he)]
      exact ih h
    · rw [if_neg he, if_neg (fun hx => he ((h _).mpr hx))]
      refine congrArg (e :: ·) (ih ?_)
      intro s
      simp only [List.mem_cons]
      exact or_congr Iff.rfl (h s)

theorem dedupPass_append (key : Event → String) :
    ∀ (l₁ : List Event) (seen : List String) (l₂ : List Event),
      dedupPass key seen (l₁ ++ l₂)
        = dedupPass key seen l₁ ++ dedupPass key (l₁.map key ++ seen) l₂ := by
  intro l₁
  induction l₁ with
  | nil => intro seen l₂; simp [dedupPass]
  | cons e t ih =>
    intro seen l₂
    simp only [List.cons_append, dedupPass, List.map_cons, List.append_eq]
    by_cases he : key e ∈ seen
    · simp only [if_pos he]
      rw [ih seen l₂]
      refine congrArg (dedupPass key seen t ++ ·) (dedupPass_congr key l₂ ?_)
      intro s
      simp only [List.cons_append, List.mem_cons, List.mem_append]
      constructor
      · intro h; exact Or.inr h
      · rintro (rfl | h)
        · exact Or.inr he
        · exact h
    · simp only [if_neg he]
      rw [ih (key e :: seen) l₂, List.cons_append]
      refine congrArg (fun x => e :: (dedupPass key (key e :: seen) t ++ x))
        (dedupPass_congr key l₂ ?_)
      intro s
      simp only [List.cons_append, List.mem_cons, List.mem_append]
      tauto

theorem mem_of_mem_dedupPass (key : Event → String) :
    ∀ {l : List Event} {seen : List String} {e : Event},
      e ∈ dedupPass key seen l → e ∈ l := by
  intro l
  induction l with
  | nil => intro seen e h; simp [dedupPass] at h
  | cons a t ih =>
    intro seen e h
    simp only [dedupPass] at h
    by_cases ha : key a ∈ seen
    · rw [if_pos ha] at h
      exact List.mem_cons_of_mem a (ih h)
    · rw [if_neg ha] at h
      rcases List.mem_cons.mp h with h | h
      · exact h ▸ List.mem_cons_self a t
      · exact List.mem_cons_of_mem a (ih h)

theorem key_not_seen_of_mem_dedupPass (key : Event → String) :
    ∀ {l : List Event} {seen : List String} {e : Event},
      e ∈ dedupPass key seen l → key e ∉ seen := by
  intro l
  induction l with
  | nil => intro seen e h; simp [dedupPass] at h
  | cons a t ih =>
    intro seen e h
    simp only [dedupPass] at h
    by_cases ha : key a ∈ seen
    · rw [if_pos ha] at h
      exact ih h
    · rw [if_neg ha] at h
      rcases List.mem_cons.mp h with h | h
      · exact h ▸ ha
      · intro hs
        exact ih h (List.mem_cons_of_mem _ hs)

theorem exists_mem_dedupPass_of_key (key : Event → String) :
    ∀ {l : List Event} {seen : List String} {k : String},
      k ∈ l.map key → k ∉ seen → ∃ e ∈ dedupPass key seen l, key e = k := by
  intro l
  induction l with
  | nil => intro seen k h _; simp at h
  | cons a t ih =>
    intro seen k hk hks
    simp only [dedupPass]
    by_cases ha : key a ∈ seen
    · rw [if_pos ha]
      have hkt : k ∈ t.map key := by
        rcases List.mem_map.mp hk with ⟨e, he, rfl⟩
        rcases List.mem_cons.mp he with rfl | he
        · exact absurd ha hks
        · exact List.mem_map_of_mem key he
      exact ih hkt hks
    · rw [if_neg ha]
      by_cases hka : k = key a
      · exact ⟨a, List.mem_cons_self _ _, hka.symm⟩
      · have hkt : k ∈ t.map key := by
          rcases List.mem_map.mp hk with ⟨e, he, rfl⟩
          rcases List.mem_cons.mp he with rfl | he
          · exact absurd rfl hka
          · exact List.mem_map_of_mem key he
        obtain ⟨e, he, hke⟩ := ih hkt (by
          intro hx
          rcases List.mem_cons.mp hx with hx | hx
          · exact hka hx
          · exact hks hx)
        exact ⟨e, List.mem_cons_of_mem a he, hke⟩

theorem nodup_keys_dedupPass (key : Event → String) :
    ∀ (l : List Event) (seen : List String), ((dedupPass key seen l).map key).Nodup := by
  intro l
  induction l with
  | nil => intro seen; simp [dedupPass]
  | cons a t ih =>
    intro seen
    simp only [dedupPass]
    by_cases ha : key a ∈ seen
    · rw [if_pos ha]
      exact ih seen
    · rw [if_neg ha]
      simp only [List.map_cons, List.nodup_cons]
      refine ⟨?_, ih _⟩
      intro hmem
      rcases List.mem_map.mp hmem with ⟨e, he, hke⟩
      exact key_not_seen_of_mem_dedupPass key he (hke ▸ List.mem_cons_self _ _)

theorem dedupPass_eq_self (key : Event → String) :
    ∀ {l : List Event} {seen : List String},
      (∀ e ∈ l, key e ∉ seen) → (l.map key).Nodup → dedupPass key seen l = l := by
  intro l
  induction l with
  | nil => intro seen _ _; rfl
  | cons a t ih =>
    intro seen hseen hnd
    simp only [dedupPass]
    rw [if_neg (hseen a (List.mem_cons_self a t))]
    refine congrArg (a :: ·) (ih ?_ ?_)
    · intro e he hx
      rcases List.mem_cons.mp hx with hx | hx
      · have : key a ∉ t.map key := (List.nodup_cons.mp (by simpa using hnd)).1
        exact this (hx ▸ List.mem_map_of_mem key he)
      · exact hseen e (List.mem_cons_of_mem a he) hx
    · exact (List.nodup_cons.mp (by simpa using hnd)).2

/-! Lemmas about the aggregator pipeline. -/

theorem searchSequential_eq_map (agg : EventAggregator) (providers : List IEventProvider)
    (params : EventSearchParams) :
    searchSequential agg providers params
      = providers.map (caughtSearch (withSize agg params)) := by
  induction providers with
  | nil => rfl
  | cons p t ih =>
    simp only [searchSequential, List.map_cons]
    rw [ih]

theorem fanOut_eq_map (agg : EventAggregator) (providers : List IEventProvider)
    (params : EventSearchParams) :
    fanOut agg providers params = providers.map (caughtSearch (withSize agg params)) := by
  unfold fanOut searchParallel
  by_cases h : agg.parallelRequests = true
  · rw [if_pos h]
  · rw [if_neg h]
    exact searchSequential_eq_map agg providers params

theorem searchEvents_of_available (jd : JSHost) (agg : EventAggregator)
    (params : EventSearchParams)
    (h : (agg.providers.filter (·.isAvailable)).length ≠ 0) :
    searchEvents jd agg params = Except.ok
      { events := mergeEvents jd agg (fanOut agg (agg.providers.filter (·.isAvailable)) params)
        totalCount :=
          (mergeEvents jd agg (fanOut agg (agg.providers.filter (·.isAvailable)) params)).length
        hasMore := (fanOut agg (agg.providers.filter (·.isAvailable)) params).any (·.hasMore)
        source := "aggregated" } := by
  unfold searchEvents
  rw [if_neg h]

theorem searchEvents_of_none_available (jd : JSHost) (agg : EventAggregator)
    (params : EventSearchParams)
    (h : (agg.providers.filter (·.isAvailable)).length = 0) :
    searchEvents jd agg params = Except.error "No event providers are available" := by
  unfold searchEvents
  rw [if_pos h]

theorem searchEvents_ok_elim (jd : JSHost) (agg : EventAggregator)
    (params : EventSearchParams) (r : EventSearchResult)
    (h : searchEvents jd agg params = Except.ok r) :
    (agg.providers.filter (·.isAvailable)).length ≠ 0 ∧
      r = { events := mergeEvents jd agg (fanOut agg (agg.providers.filter (·.isAvailable)) params)
            totalCount :=
              (mergeEvents jd agg
                (fanOut agg (agg.providers.filter (·.isAvailable)) params)).length
            hasMore := (fanOut agg (agg.providers.filter (·.isAvailable)) params).any (·.hasMore)
            source := "aggregated" } := by
  by_cases hl : (agg.providers.filter (·.isAvailable)).length = 0
  · rw [searchEvents_of_none_available jd agg params hl] at h
    cases h
  · rw [searchEvents_of_available jd agg params hl] at h
    exact ⟨hl, (Except.ok.injEq _ _ |>.mp h).symm⟩

theorem flatten_caught_eq_flatten_successful (params : EventSearchParams) :
    ∀ (providers : List IEventProvider),
      (((providers.map (caughtSearch params)).map (·.events)).flatten : List Event)
        = ((providers.filterMap (fun p => (p.searchEvents params).toOption)).map
            (·.events)).flatten := by
  intro providers
  induction providers with
  | nil => rfl
  | cons p t ih =>
    simp only [List.map_cons, List.flatten_cons, List.filterMap_cons]
    cases hp : p.searchEvents params with
    | ok r =>
      rw [show (Except.ok r : Except String EventSearchResult).toOption = some r from rfl]
      simp only [caughtSearch, hp, List.map_cons, List.flatten_cons]
      rw [ih]
    | error e =>
      rw [show (Except.error e : Except String EventSearchResult).toOption = none from rfl]
      simp only [caughtSearch, hp, emptyResultFor, List.nil_append]
      exact ih

theorem mergeEvents_congr (jd : JSHost) (agg : EventAggregator)
    {results₁ results₂ : List EventSearchResult}
    (h : ((results₁.map (·.events)).flatten : List Event) = (results₂.map (·.events)).flatten) :
    mergeEvents jd agg results₁ = mergeEvents jd agg results₂ := by
  unfold mergeEvents deduplicateEvents
  rw [h]

/-! Claim theorems. -/

/-- C1: for every search where at least one provider is available, `searchEvents`
resolves (never rejects because a provider rejected): each failing provider's
contribution is the empty result, so the returned events are exactly the merge
of the non-failing providers' results. -/
theorem searchEvents_resolves_despite_provider_failures
    (jd : JSHost) (config : EventAggregatorConfig) (params : EventSearchParams)
    (h : ((EventAggregator.ofConfig config).providers.filter (·.isAvailable)).length ≠ 0) :
    ∃ r, searchEvents jd (EventAggregator.ofConfig config) params = Except.ok r ∧
      r.events = mergeEvents jd (EventAggregator.ofConfig config)
        (((EventAggregator.ofConfig config).providers.filter (·.isAvailable)).filterMap
          (fun p => (p.searchEvents
            (withSize (EventAggregator.ofConfig config) params)).toOption)) := by
  refine ⟨_, searchEvents_of_available jd _ params h, ?_⟩
  show mergeEvents _ _ _ = _
  refine mergeEvents_congr jd _ ?_
  rw [fanOut_eq_map]
  exact flatten_caught_eq_flatten_successful _ _

/-- Witness for C1: in `cfgMixed` the provider `pFail` always rejects and `pOff`
is unavailable, yet `searchEvents` resolves and returns the merge of the
successful providers' events. -/
theorem searchEvents_resolves_despite_provider_failures_witness :
    ((EventAggregator.ofConfig cfgMixed).providers.filter (·.isAvailable)).length ≠ 0 ∧
      ∃ r, searchEvents jdW (EventAggregator.ofConfig cfgMixed) {} = Except.ok r ∧
        r.events = mergeEvents jdW (EventAggregator.ofConfig cfgMixed)
          (((EventAggregator.ofConfig cfgMixed).providers.filter (·.isAvailable)).filterMap
            (fun p => (p.searchEvents
              (withSize (EventAggregator.ofConfig cfgMixed) {})).toOption)) :=
  ⟨by decide, searchEvents_resolves_despite_provider_failures jdW cfgMixed {} (by decide)⟩

/-- C2: when every registered provider reports `isAvailable() = false`,
`searchEvents` fails with the "No event providers are available" error and
produces no partial result. -/
theorem searchEvents_errors_when_no_provider_available
    (jd : JSHost) (config : EventAggregatorConfig) (params : EventSearchParams)
    (h : ∀ p ∈ config.providers, p.isAvailable = false) :
    searchEvents jd (EventAggregator.ofConfig config) params
      = Except.error "No event providers are available" := by
  apply searchEvents_of_none_available
  have hfil : (EventAggregator.ofConfig config).providers.filter (·.isAvailable) = [] := by
    apply List.filter_eq_nil_iff.mpr
    intro p hp
    have hmem : p ∈ config.providers := by
      simp only [EventAggregator.ofConfig] at hp
      exact (jsSort_perm priorityDesc config.providers).mem_iff.mp hp
    simp [h p hmem]
  rw [hfil]
  rfl

/-- Witness for C2: the single provider of `cfgAllOff` is unavailable, and
`searchEvents` fails with the dedicated error. -/
theorem searchEvents_errors_when_no_provider_available_witness :
    (∀ p ∈ cfgAllOff.providers, p.isAvailable = false) ∧
      searchEvents jdW (EventAggregator.ofConfig cfgAllOff) {}
        = Except.error "No event providers are available" :=
  ⟨by decide, searchEvents_errors_when_no_provider_available jdW cfgAllOff {} (by decide)⟩

/-- C4 counterexample: a successful merged result whose `source` is the
lowercase string "aggregated", not the literal "Aggregated" the claim states. -/
theorem searchEvents_source_not_capitalized :
    (searchEvents jdW (EventAggregator.ofConfig cfgMixed) {}).map (·.source)
      = Except.ok "aggregated" ∧ ("aggregated" : String) ≠ "Aggregated" :=
  ⟨by decide, by decide⟩

/-- C4 (amended): every successful merged result has `source = "aggregated"`
(lowercase, as written in the code), `totalCount` equal to the number of
returned events, and `hasMore` true iff some per-provider result had
`hasMore` true. -/
theorem searchEvents_result_shape (jd : JSHost) (agg : EventAggregator)
    (params : EventSearchParams) (r : EventSearchResult)
    (h : searchEvents jd agg params = Except.ok r) :
    r.source = "aggregated" ∧ r.totalCount = r.events.length ∧
      (r.hasMore = true ↔
        ∃ res ∈ fanOut agg (agg.providers.filter (·.isAvailable)) params,
          res.hasMore = true) := by
  obtain ⟨-, rfl⟩ := searchEvents_ok_elim jd agg params r h
  refine ⟨rfl, rfl, ?_⟩
  exact List.any_eq_true

/-- Witness for C4 (amended): the concrete merged result of `cfgMixed` has the
stated shape; its `hasMore` is true because provider `pB`'s result had more. -/
theorem searchEvents_result_shape_witness :
    searchEvents jdW (EventAggregator.ofConfig cfgMixed) {} = Except.ok
        { events := [evA, evB], totalCount := 2, hasMore := true, source := "aggregated" } ∧
      (("aggregated" : String) = "aggregated" ∧ (2 : Nat) = [evA, evB].length ∧
        (true = true ↔
          ∃ res ∈ fanOut (EventAggregator.ofConfig cfgMixed)
              ((EventAggregator.ofConfig cfgMixed).providers.filter (·.isAvailable)) {},
            res.hasMore = true)) :=
  ⟨by decide, searchEvents_result_shape jdW (EventAggregator.ofConfig cfgMixed) {}
    { events := [evA, evB], totalCount := 2, hasMore := true, source := "aggregated" }
    (by decide)⟩

/-- C6: any timeframe other than "today", "week", "month", "3months" (including
the empty string) is passed through: `getEventsByTimeframe` returns all events
unfiltered and never errors. -/
theorem getEventsByTimeframe_unknown_passthrough
    (jd : JSHost) (events : List Event) (timeframe : String)
    (h1 : timeframe ≠ "today") (h2 : timeframe ≠ "week")
    (h3 : timeframe ≠ "month") (h4 : timeframe ≠ "3months") :
    getEventsByTimeframe jd events timeframe = events := by
  unfold getEventsByTimeframe
  simp only [if_neg h1, if_neg h2, if_neg h3, if_neg h4]
  exact List.filter_true events

/-- Witness for C6: the unrecognized timeframe "bogus" filters nothing. -/
theorem getEventsByTimeframe_unknown_passthrough_witness :
    (("bogus" : String) ≠ "today" ∧ ("bogus" : String) ≠ "week" ∧
      ("bogus" : String) ≠ "month" ∧ ("bogus" : String) ≠ "3months") ∧
      getEventsByTimeframe jdW [evA] "bogus" = [evA] :=
  ⟨⟨by decide, by decide, by decide, by decide⟩,
    getEventsByTimeframe_unknown_passthrough jdW [evA] "bogus"
      (by decide) (by decide) (by decide) (by decide)⟩

/-- C8: with a fixed reference instant, filtering by the "week" timeframe is
idempotent: applying it twice equals applying it once. -/
theorem getEventsByTimeframe_week_idempotent (jd : JSHost) (events : List Event) :
    getEventsByTimeframe jd (getEventsByTimeframe jd events "week") "week"
      = getEventsByTimeframe jd events "week" := by
  unfold getEventsByTimeframe
  rw [List.filter_filter]
  simp only [Bool.and_self]

/-- C10: with the same providers behaving as fixed functions of their input,
`searchEvents` returns an identical merged result whether `parallelRequests`
is true or false: both fan-out modes produce the per-provider results in
registry order. -/
theorem searchEvents_independent_of_parallel_flag (jd : JSHost)
    (config : EventAggregatorConfig) (params : EventSearchParams) :
    searchEvents jd
        (EventAggregator.ofConfig { config with parallelRequests := some true }) params
      = searchEvents jd
          (EventAggregator.ofConfig { config with parallelRequests := some false }) params := by
  simp only [searchEvents, fanOut_eq_map, mergeEvents, withSize, EventAggregator.ofConfig]

/-- C3 counterexample: with deduplication disabled the merge step performs no
sort at all, so a provider returning a later event before an earlier one yields
an unsorted merged result. -/
theorem searchEvents_unsorted_without_dedup :
    (searchEvents jdW (EventAggregator.ofConfig cfgNoDedup) {}).map (·.events)
      = Except.ok [evLate, evEarly] ∧
    ¬ List.Pairwise
        (fun a b => ∀ ta tb, jdW.parse a.date = some ta → jdW.parse b.date = some tb → ta ≤ tb)
        [evLate, evEarly] := by
  refine ⟨by decide, ?_⟩
  intro h
  have hle := (List.pairwise_cons.mp h).1 evEarly (by simp) 2000 1000 (by decide) (by decide)
  omega

/-- C3 (amended): only with deduplication enabled is the merged result sorted,
and only its events with parseable dates are guaranteed ascending: whenever all
events of a successful result parse, the event list is sorted ascending by
parsed date. -/
theorem searchEvents_sorted_of_dedup_and_parseable (jd : JSHost) (agg : EventAggregator)
    (params : EventSearchParams) (r : EventSearchResult)
    (hd : agg.enableDeduplication = true)
    (h : searchEvents jd agg params = Except.ok r)
    (hp : ∀ e ∈ r.events, (jd.parse e.date).isSome) :
    List.Pairwise
      (fun a b => ∀ ta tb, jd.parse a.date = some ta → jd.parse b.date = some tb → ta ≤ tb)
      r.events := by
  obtain ⟨-, rfl⟩ := searchEvents_ok_elim jd agg params r h
  simp only [mergeEvents, hd, if_true, deduplicateEvents] at hp ⊢
  exact pairwise_of_chain'_parseable jd hp (chain'_jsSort (dateLe jd) (dateLe_total jd) _)

/-- Witness for C3 (amended): the deduplicated merged result of `cfgMixed` has
only parseable dates and comes out sorted ascending. -/
theorem searchEvents_sorted_of_dedup_and_parseable_witness :
    (EventAggregator.ofConfig cfgMixed).enableDeduplication = true ∧
    searchEvents jdW (EventAggregator.ofConfig cfgMixed) {} = Except.ok
      { events := [evA, evB], totalCount := 2, hasMore := true, source := "aggregated" } ∧
    (∀ e ∈ [evA, evB], (jdW.parse e.date).isSome) ∧
    List.Pairwise
      (fun a b => ∀ ta tb, jdW.parse a.date = some ta → jdW.parse b.date = some tb → ta ≤ tb)
      [evA, evB] :=
  ⟨by decide, by decide, by decide,
    searchEvents_sorted_of_dedup_and_parseable jdW (EventAggregator.ofConfig cfgMixed) {}
      { events := [evA, evB], totalCount := 2, hasMore := true, source := "aggregated" }
      (by decide) (by decide) (by decide)⟩

/-- C7 counterexample: an event whose date does not parse does not sort to the
end — in this merged result the unparseable `evN` is followed by the parseable
`ev1`, because the NaN comparator value is treated as "equal". -/
theorem unparseable_dates_not_at_end :
    (searchEvents jdW (EventAggregator.ofConfig cfgNaN) {}).map (·.events)
      = Except.ok [ev3, evN, ev1] ∧
    jdW.parse evN.date = none ∧ (jdW.parse ev1.date).isSome = true :=
  ⟨by decide, by decide, by decide⟩

/-- C7 (amended): unparseable dates never make the sort step fail — the
comparator is total, the sort completes and loses nothing: the merged events
are a permutation of the deduplicated working set (unparseable-date events are
retained, but not guaranteed to appear at the end). -/
theorem searchEvents_events_perm_of_dedup (jd : JSHost) (agg : EventAggregator)
    (params : EventSearchParams) (r : EventSearchResult)
    (hd : agg.enableDeduplication = true)
    (h : searchEvents jd agg params = Except.ok r) :
    r.events.Perm (dedupPass (generateDeduplicationKey jd) []
      (((fanOut agg (agg.providers.filter (·.isAvailable)) params).map
        (·.events)).flatten)) := by
  obtain ⟨-, rfl⟩ := searchEvents_ok_elim jd agg params r h
  simp only [mergeEvents, hd, if_true, deduplicateEvents]
  exact jsSort_perm _ _

/-- Witness for C7 (amended): the merged result containing the unparseable
`evN` is a permutation of its deduplicated working set. -/
theorem searchEvents_events_perm_of_dedup_witness :
    (EventAggregator.ofConfig cfgNaN).enableDeduplication = true ∧
    searchEvents jdW (EventAggregator.ofConfig cfgNaN) {} = Except.ok
      { events := [ev3, evN, ev1], totalCount := 3, hasMore := false, source := "aggregated" } ∧
    List.Perm [ev3, evN, ev1]
      (dedupPass (generateDeduplicationKey jdW) []
        (((fanOut (EventAggregator.ofConfig cfgNaN)
            ((EventAggregator.ofConfig cfgNaN).providers.filter (·.isAvailable)) {}).map
          (·.events)).flatten)) :=
  ⟨by decide, by decide,
    searchEvents_events_perm_of_dedup jdW (EventAggregator.ofConfig cfgNaN) {}
      { events := [ev3, evN, ev1], totalCount := 3, hasMore := false, source := "aggregated" }
      (by decide) (by decide)⟩

/-- C9: deduplication is idempotent — applying the deduplication step to the
output of deduplication changes nothing: all keys are already unique, so no
event is dropped, and re-sorting an already-sorted list is the identity. -/
theorem deduplicateEvents_idempotent (jd : JSHost) (results : List EventSearchResult)
    (tc : Nat) (hm : Bool) (src : String) :
    deduplicateEvents jd
        [{ events := deduplicateEvents jd results, totalCount := tc,
           hasMore := hm, source := src }]
      = deduplicateEvents jd results := by
  unfold deduplicateEvents
  simp only [List.map_cons, List.map_nil, List.flatten_cons, List.flatten_nil, List.append_nil]
  have hnodup :
      ((jsSort (dateLe jd)
          (dedupPass (generateDeduplicationKey jd) []
            ((results.map (·.events)).flatten))).map (generateDeduplicationKey jd)).Nodup :=
    ((jsSort_perm (dateLe jd) _).map (generateDeduplicationKey jd)).nodup_iff.mpr
      (nodup_keys_dedupPass (generateDeduplicationKey jd) _ _)
  rw [dedupPass_eq_self (generateDeduplicationKey jd)
    (fun e _ hmem => List.not_mem_nil _ hmem) hnodup]
  exact jsSort_eq_of_chain' (dateLe jd)
    (chain'_jsSort (dateLe jd) (dateLe_total jd) _)

/-- C5: with deduplication enabled, when the results of earlier
(higher-priority) providers `P` contain an event `a` with the same
deduplication key as an event `b` contributed by a later provider `q` — equal
lowercased trimmed title, same calendar day string, equal lowercased trimmed
venue — and `b` was not itself contributed earlier, then `b` is dropped from
the merged result and the surviving event with that key comes from the earlier
providers' results.  Completion order plays no role: the model concatenates
per-provider results in registry order, exactly as `Promise.all` does. -/
theorem dedup_earlier_provider_wins (jd : JSHost) (agg : EventAggregator)
    (params : EventSearchParams) (P Q : List IEventProvider) (q : IEventProvider)
    (a b : Event)
    (hd : agg.enableDeduplication = true)
    (hsplit : agg.providers.filter (·.isAvailable) = P ++ q :: Q)
    (ha : a ∈ (((P.map (caughtSearch (withSize agg params))).map (·.events)).flatten
                : List Event))
    (hb : b ∈ (caughtSearch (withSize agg params) q).events)
    (hbP : b ∉ (((P.map (caughtSearch (withSize agg params))).map (·.events)).flatten
                : List Event))
    (htitle : jd.trim (jd.toLowerCase a.title) = jd.trim (jd.toLowerCase b.title))
    (hday : jd.dayString a.date = jd.dayString b.date)
    (hvenue : jd.trim (jd.toLowerCase a.venue) = jd.trim (jd.toLowerCase b.venue)) :
    ∃ r, searchEvents jd agg params = Except.ok r ∧ b ∉ r.events ∧
      ∃ e, e ∈ (((P.map (caughtSearch (withSize agg params))).map (·.events)).flatten
                  : List Event) ∧
        generateDeduplicationKey jd e = generateDeduplicationKey jd a ∧ e ∈ r.events := by
  have hkey : generateDeduplicationKey jd a = generateDeduplicationKey jd b := by
    unfold generateDeduplicationKey
    rw [htitle, hday, hvenue]
  have hlen : (agg.providers.filter (·.isAvailable)).length ≠ 0 := by
    rw [hsplit]
    simp
  have hev : mergeEvents jd agg (fanOut agg (agg.providers.filter (·.isAvailable)) params)
      = jsSort (dateLe jd)
          (dedupPass (generateDeduplicationKey jd) []
            ((((P.map (caughtSearch (withSize agg params))).map (·.events)).flatten
                : List Event) ++
              (((q :: Q).map (caughtSearch (withSize agg params))).map (·.events)).flatten)) := by
    simp only [mergeEvents, hd, if_true, deduplicateEvents, fanOut_eq_map, hsplit,
      List.map_append, List.flatten_append]
  refine ⟨_, searchEvents_of_available jd agg params hlen, ?_, ?_⟩
  · show b ∉ mergeEvents jd agg (fanOut agg (agg.providers.filter (·.isAvailable)) params)
    rw [hev]
    intro hbmem
    have hbd := (jsSort_perm (dateLe jd) _).mem_iff.mp hbmem
    rw [dedupPass_append] at hbd
    rcases List.mem_append.mp hbd with h1 | h2
    · exact hbP (mem_of_mem_dedupPass _ h1)
    · have hknot := key_not_seen_of_mem_dedupPass _ h2
      rw [List.append_nil] at hknot
      exact hknot (hkey ▸ List.mem_map_of_mem _ ha)
  · have hka : generateDeduplicationKey jd a
        ∈ (((P.map (caughtSearch (withSize agg params))).map (·.events)).flatten
            : List Event).map (generateDeduplicationKey jd) :=
      List.mem_map_of_mem _ ha
    obtain ⟨e, he, hke⟩ := exists_mem_dedupPass_of_key _ hka (List.not_mem_nil _)
    refine ⟨e, mem_of_mem_dedupPass _ he, hke, ?_⟩
    show e ∈ mergeEvents jd agg (fanOut agg (agg.providers.filter (·.isAvailable)) params)
    rw [hev]
    refine (jsSort_perm (dateLe jd) _).mem_iff.mpr ?_
    rw [dedupPass_append]
    exact List.mem_append_left _ he

/-- Witness for C5: in `cfgMixed`, top-priority `pA`'s event `evA` and
lowest-priority `pC`'s event `evC` share their deduplication key; `evC` is
dropped and an event with that key from the earlier providers survives. -/
theorem dedup_earlier_provider_wins_witness :
    ((EventAggregator.ofConfig cfgMixed).providers.filter (·.isAvailable)
        = [pA, pFail, pB] ++ pC :: []) ∧
    ∃ r, searchEvents jdW (EventAggregator.ofConfig cfgMixed) {} = Except.ok r ∧
      evC ∉ r.events ∧
      ∃ e, e ∈ ((([pA, pFail, pB].map
            (caughtSearch (withSize (EventAggregator.ofConfig cfgMixed) {}))).map
              (·.events)).flatten : List Event) ∧
        generateDeduplicationKey jdW e = generateDeduplicationKey jdW evA ∧ e ∈ r.events :=
  ⟨rfl,
    dedup_earlier_provider_wins jdW (EventAggregator.ofConfig cfgMixed) {}
      [pA, pFail, pB] [] pC evA evC
      (by decide) rfl (by decide) (by decide) (by decide)
      (by decide) (by decide) (by decide)⟩

end EventFinder
